import Mathlib

/-!
Verification of the caching, URL-discovery and run-orchestration core of the
playwright-vrt repository.  The TypeScript sources are shallowly embedded:
pure functions become Lean functions, the effectful parts (filesystem,
network, browser, engine process) are modelled by explicit environment
records, and JavaScript exceptions become `Except`.  Each definition is
annotated with the source location it embeds.
-/

namespace PVRT

/-! ## String ordering

JavaScript `Array.prototype.sort()` on strings compares by code units.  We
model it by a lexicographic comparison on the character list; for the ASCII
keys appearing in configurations this coincides with the JS order.
-/

/-- Lexicographic less-or-equal on character lists (code-point order). -/
def charsLe : List Char → List Char → Bool
  | [], _ => true
  | _ :: _, [] => false
  | c :: cs, d :: ds => if c = d then charsLe cs ds else decide (c < d)

/-- Lexicographic less-or-equal on strings, modelling the default JS sort
comparator restricted to the ASCII keys used by the configuration. -/
def strLe (a b : String) : Bool := charsLe a.data b.data

/-- Insertion step of insertion sort. -/
def insertLe (le : α → α → Bool) (x : α) : List α → List α
  | [] => [x]
  | y :: ys => if le x y then x :: y :: ys else y :: insertLe le x ys

/-- Stable insertion sort, modelling `Array.prototype.sort` (which for the
key lists involved is a plain comparison sort). -/
def isort (le : α → α → Bool) : List α → List α
  | [] => []
  | x :: xs => insertLe le x (isort le xs)

/-! ## JSON values and `JSON.stringify` with an array replacer

`computeConfigHash` (src/unnamed/part_001 lines 21-25) runs
`JSON.stringify(config, Object.keys(config).sort())`.  Per the ECMAScript
spec, an array replacer is a *property list*: at **every** object level only
the listed property names are serialized, in the list's order; array
elements are not filtered.  We embed exactly those semantics below.
-/

/-- JSON value.  Atomic non-string values (numbers, booleans, null) are
carried as their serialized literal text in `prim`, which is all
`JSON.stringify` needs of them. -/
inductive Json where
  | prim (s : String)
  | str (s : String)
  | arr (elems : List Json)
  | obj (fields : List (String × Json))

/-- Quotation of a JSON string.  Escaping is omitted: configuration strings
contain no quotes or control characters. -/
def jquote (s : String) : String := "\"" ++ s ++ "\""

/-- First binding of key `k` in an association list, modelling JS property
lookup (JS objects cannot contain duplicate keys). -/
def lookupFirst (fs : List (String × α)) (k : String) : Option α :=
  match fs with
  | [] => none
  | (k', v) :: rest => if k' = k then some v else lookupFirst rest k

mutual
/-- Embedding of `JSON.stringify(value, P)` with property list `P`
(src/unnamed/part_001 line 23): objects keep only the keys named in `P`,
in `P` order, at every nesting level; arrays are serialized in full. -/
def strW (P : List String) : Json → String
  | .prim s => s
  | .str s => jquote s
  | .arr es => "[" ++ String.intercalate "," (strL P es) ++ "]"
  | .obj fs =>
      "\x7b" ++ String.intercalate ","
        (P.filterMap (fun k => (lookupFirst (strF P fs) k).map
          (fun sv => jquote k ++ ":" ++ sv))) ++ "\x7d"
termination_by j => sizeOf j

/-- Serialization of a list of JSON values (array elements). -/
def strL (P : List String) : List Json → List String
  | [] => []
  | j :: js => strW P j :: strL P js
termination_by js => sizeOf js

/-- Serialization of every field value of an object, keeping the keys. -/
def strF (P : List String) : List (String × Json) → List (String × String)
  | [] => []
  | (k, v) :: fs => (k, strW P v) :: strF P fs
termination_by fs => sizeOf fs
end

/-- Key order on fields, used by the canonicalization sort. -/
def pairLe (a b : String × Json) : Bool := strLe a.1 b.1

mutual
/-- Key-sorted canonicalization of a JSON value: recursively sorts every
object's fields by key.  This is the spec's notion of the "canonicalized
(key-sorted) structured representation" (§4.3); two JS objects have the same
structured content exactly when their canonicalizations are equal. -/
def canon : Json → Json
  | .prim s => .prim s
  | .str s => .str s
  | .arr es => .arr (canonL es)
  | .obj fs => .obj (isort pairLe (canonF fs))
termination_by j => sizeOf j

/-- Canonicalization of a list of JSON values. -/
def canonL : List Json → List Json
  | [] => []
  | j :: js => canon j :: canonL js
termination_by js => sizeOf js

/-- Canonicalization of every field value of an object. -/
def canonF : List (String × Json) → List (String × Json)
  | [] => []
  | (k, v) :: fs => (k, canon v) :: canonF fs
termination_by fs => sizeOf fs
end

mutual
/-- Well-formedness of a JSON value as the image of a JS object: every
object has pairwise-distinct keys (a JS object cannot hold two bindings of
the same key). -/
def wfKeys : Json → Bool
  | .prim _ => true
  | .str _ => true
  | .arr es => wfKeysL es
  | .obj fs => decide ((fs.map Prod.fst).Nodup) && wfKeysF fs
termination_by j => sizeOf j

/-- Well-formedness of a list of JSON values. -/
def wfKeysL : List Json → Bool
  | [] => true
  | j :: js => wfKeys j && wfKeysL js
termination_by js => sizeOf js

/-- Well-formedness of the field values of an object. -/
def wfKeysF : List (String × Json) → Bool
  | [] => true
  | (_, v) :: fs => wfKeys v && wfKeysF fs
termination_by fs => sizeOf fs
end

/-- Embedding of `computeConfigHash` (src/unnamed/part_001 lines 21-25):
`JSON.stringify(config, Object.keys(config).sort())` followed by SHA-256.
SHA-256 is collision-free for the purposes of the spec, so the development
reasons about the serialized string itself: two hashes are equal exactly
when the serialized strings are. -/
def computeConfigHash (fields : List (String × Json)) : String :=
  strW (isort strLe (fields.map Prod.fst)) (.obj fields)

/-- Stored cache manifest content, embedding `.cache-hash.json`
(src/unnamed/part_001 lines 60-72): the two fingerprints.  The timestamp is
only logged, never compared, and is omitted.  `none` models a missing file
or any read/parse failure (the `catch` in `isCacheValid`). -/
structure StoredHashes where
  config : String
  testFile : String

/-- Embedding of `isCacheValid` (src/unnamed/part_001 lines 30-55): the
cache is valid when the manifest is readable and both stored fingerprints
equal the current ones. -/
def isCacheValid (stored : Option StoredHashes)
    (currentConfig currentTestFile : String) : Bool :=
  match stored with
  | none => false
  | some s => s.config == currentConfig && s.testFile == currentTestFile

/-! ## URLs

The runtime's WHATWG `new URL(u)` parser is modelled by a simplified
executable parser covering the `http(s)://host/path?query#hash` shapes the
tool manipulates; an unparseable string yields `none`, modelling the thrown
`TypeError`.
-/

/-- Components of a parsed absolute URL, mirroring the `URL` properties the
source reads: `hostname`, `pathname`, `search` and `hash`. -/
structure URLParts where
  scheme : String
  hostname : String
  pathname : String
  search : String
  fragment : String
deriving DecidableEq

/-- Characters terminating the host component. -/
def hostEnd (c : Char) : Bool := c = '/' || c = '?' || c = '#'

/-- Splits a character list at the first character satisfying `p`; the
second component starts with that character. -/
def splitAtFirst (p : Char → Bool) : List Char → List Char × List Char
  | [] => ([], [])
  | c :: cs =>
      if p c then ([], c :: cs)
      else
        let r := splitAtFirst p cs
        (c :: r.1, r.2)

/-- Model of `new URL(u)` for absolute http(s) URLs.  The empty path is
normalized to "/" as the WHATWG parser does; a missing scheme or empty host
fails, modelling the thrown `TypeError`. -/
def parseURL (s : String) : Option URLParts :=
  let parseRest (scheme : String) (rest : List Char) : Option URLParts :=
    let hostSplit := splitAtFirst hostEnd rest
    if hostSplit.1 = [] then none
    else
      let hashSplit := splitAtFirst (fun c => c = '#') hostSplit.2
      let querySplit := splitAtFirst (fun c => c = '?') hashSplit.1
      some { scheme := scheme,
             hostname := String.mk hostSplit.1,
             pathname := if querySplit.1 = [] then "/" else String.mk querySplit.1,
             search := String.mk querySplit.2,
             fragment := String.mk hashSplit.2 }
  if "https://".data.isPrefixOf s.data then
    parseRest "https" (s.data.drop 8)
  else if "http://".data.isPrefixOf s.data then
    parseRest "http" (s.data.drop 7)
  else none

/-- Serialization of parsed URL components, modelling `URL#toString` /
`URL#href` for the shapes produced by `parseURL`. -/
def urlToString (u : URLParts) : String :=
  u.scheme ++ "://" ++ u.hostname ++ u.pathname ++ u.search ++ u.fragment

/-- Path plus query of a URL, as built by `filterURLs`
(src/unnamed/part_003 line 141): `urlObj.pathname + urlObj.search`. -/
def pathq (u : URLParts) : String := u.pathname ++ u.search

/-! ## Glob matching

`filterURLs` calls `micromatch.isMatch(path, patterns, {bash: true})`.
With `bash: true` micromatch treats a single `*` as a globstar `**`, so
both match an arbitrary character sequence including `/`.  The patterns the
repository exercises contain only literal characters and stars, which the
compiler below covers.
-/

/-- Glob pattern token: a literal character or a star (which under
micromatch's `bash: true` option matches any sequence, `/` included). -/
inductive GTok where
  | lit (c : Char)
  | anySeq
deriving DecidableEq

/-- Compilation of a glob pattern string to tokens: each `*` becomes
`anySeq` (consecutive stars compile to consecutive `anySeq` tokens, which
match the same language as one). -/
def compileGlob (p : String) : List GTok :=
  p.data.map (fun c => if c = '*' then .anySeq else .lit c)

/-- Tries a predicate on every suffix of a character list (used to let a
star consume any prefix). -/
def tryTails (f : List Char → Bool) : List Char → Bool
  | [] => f []
  | d :: ds => f (d :: ds) || tryTails f ds

/-- Glob matching of a token list against a character list: a literal must
match the next character, a star matches an arbitrary (possibly empty)
prefix. -/
def gmatch : List GTok → List Char → Bool
  | [], s => s.isEmpty
  | .lit c :: ts, s =>
      match s with
      | [] => false
      | d :: ds => c = d && gmatch ts ds
  | .anySeq :: ts, s => tryTails (gmatch ts) s

/-- Model of `micromatch.isMatch(s, patterns, {bash: true})`: true when any
pattern matches the whole string. -/
def isMatchB (s : String) (pats : List String) : Bool :=
  pats.any (fun p => gmatch (compileGlob p) s.data)

/-! ## URL discovery (src/unnamed/part_003) -/

/-- Effective configuration fields consumed by URL discovery, from
`VRTConfig` (src/src/config.ts lines 3-23).  Optional fields are `Option`;
`include`/`exclude` are spelled out because `include` is reserved in Lean.
`removeTrailingSlash` collapses the optional-chained
`crawlOptions?.removeTrailingSlash` to its truthiness. -/
structure VRTConfig where
  referenceUrl : String
  testUrl : String
  maxUrls : Option Int := none
  excludeGlobs : Option (List String) := none
  includeGlobs : Option (List String) := none
  removeTrailingSlash : Bool := false

/-- Embedding of `filterURLs` (src/unnamed/part_003 lines 137-166).
`Array.prototype.filter` runs the callback left to right and the first
thrown `TypeError` from `new URL` propagates, hence the `Except`.  A URL is
dropped when its host differs from the reference host; otherwise the exclude
list (if nonempty) rejects on match, and the include list (if nonempty) must
match. -/
def filterURLs (urls : List String) (baseUrl : String)
    (includePats excludePats : List String) : Except Unit (List String) :=
  match urls with
  | [] => .ok []
  | u :: rest =>
    match parseURL u with
    | none => .error ()
    | some uo =>
      match parseURL baseUrl with
      | none => .error ()
      | some bo =>
        let keep : Bool :=
          if uo.hostname ≠ bo.hostname then false
          else if !excludePats.isEmpty && isMatchB (pathq uo) excludePats then false
          else if !includePats.isEmpty then isMatchB (pathq uo) includePats
          else true
        (filterURLs rest baseUrl includePats excludePats).map
          (fun l => if keep then u :: l else l)

/-- Worker for first-occurrence deduplication: `seen` holds the elements
already emitted.  This is the insertion behaviour of a JS `Set`. -/
def dedupGo (seen : List String) : List String → List String
  | [] => []
  | x :: xs => if x ∈ seen then dedupGo seen xs else x :: dedupGo (x :: seen) xs

/-- Embedding of `Array.from(new Set(urls))` (src/unnamed/part_003
line 35): removes exact-string duplicates keeping the first occurrence in
first-seen order. -/
def dedupFirst (l : List String) : List String := dedupGo [] l

/-- Specification-side first-occurrence deduplication, following the spec's
words ("remove exact-string duplicates, preserving first-seen order"): keep
each element where it first appears and erase its later copies. -/
def specFirstSeenDedup : List String → List String
  | [] => []
  | x :: xs => x :: specFirstSeenDedup (xs.filter (fun y => y ≠ x))
termination_by l => l.length
decreasing_by
  simp only [List.length_cons]
  exact Nat.lt_succ_of_le (List.length_filter_le _ _)

/-- JS `Array.prototype.slice(0, end)`: a negative `end` counts from the end
of the array (`max(length + end, 0)`). -/
def jsSlice0 (endIdx : Int) (l : List α) : List α :=
  if endIdx < 0 then l.take (l.length - endIdx.natAbs) else l.take endIdx.toNat

/-- Effective URL cap: `config.maxUrls || 25` (src/unnamed/part_003
line 38) — the JS `||` replaces the falsy values `0` and `undefined` by the
default 25. -/
def effectiveMaxUrls (m : Option Int) : Int :=
  match m with
  | none => 25
  | some v => if v = 0 then 25 else v

/-- Post-filter pipeline of `collectURLs` (src/unnamed/part_003 lines
34-40): deduplicate, then truncate to the effective URL cap. -/
def postFilterPipeline (urls : List String) (maxUrls : Option Int) : List String :=
  jsSlice0 (effectiveMaxUrls maxUrls) (dedupFirst urls)

/-- Outcome of navigating the reference page in the crawl fallback
(src/unnamed/part_003 lines 80-129): `gotoFail` models `page.goto`
throwing before the page URL is recorded, `evalFail` models
`page.evaluate` throwing after it, `navOk` yields the landing page URL and
the collected anchor hrefs. -/
inductive NavResult where
  | gotoFail
  | evalFail (pageUrl : String)
  | navOk (pageUrl : String) (links : List String)

/-- Environment of the crawl fallback: whether `chromium.launch` /
`newPage` succeed, and the navigation outcome. -/
structure CrawlEnv where
  launchOk : Bool
  nav : NavResult

/-- Link normalization loop of `crawlWebsite` (src/unnamed/part_003 lines
99-122): keep same-host links, strip the fragment, optionally strip a
trailing slash (except on the root), skipping unparseable hrefs. -/
def processLinks (bo : URLParts) (baseUrl : String) (removeTrailingSlash : Bool)
    (links : List String) : List String :=
  links.filterMap (fun link =>
    match parseURL link with
    | none => none
    | some lo =>
        if lo.hostname = bo.hostname then
          let normalized := urlToString { lo with fragment := "" }
          if removeTrailingSlash then
            some (if normalized.endsWith "/" && normalized ≠ baseUrl ++ "/"
                  then String.mk normalized.data.dropLast else normalized)
          else some normalized
        else none)

/-- Embedding of `crawlWebsite` (src/unnamed/part_003 lines 67-135).
Launch and `new URL(baseUrl)` failures happen outside the `try` and
propagate; navigation errors are absorbed by the `catch`, which falls back
to the base URL.  The JS `Set` gives first-occurrence deduplication. -/
def crawlWebsite (baseUrl : String) (removeTrailingSlash : Bool)
    (env : CrawlEnv) : Except Unit (List String) :=
  if !env.launchOk then .error ()
  else
    match parseURL baseUrl with
    | none => .error ()
    | some bo =>
      match env.nav with
      | .gotoFail => .ok [baseUrl]
      | .evalFail pageUrl => .ok (dedupFirst [pageUrl, baseUrl])
      | .navOk pageUrl links =>
          .ok (dedupFirst (pageUrl :: processLinks bo baseUrl removeTrailingSlash links))

/-- Embedding of `collectFromSitemap` (src/unnamed/part_003 lines 50-65):
`new URL(sitemapPath, baseUrl)` throws on an unparseable base, the fetch
result comes from the environment, and an empty site list is turned into a
thrown error. -/
def collectFromSitemap (baseUrl : String)
    (sitemapRes : Except Unit (List String)) : Except Unit (List String) :=
  if (parseURL baseUrl).isNone then .error ()
  else
    match sitemapRes with
    | .error _ => .error ()
    | .ok sites => if sites.isEmpty then .error () else .ok sites

/-- Source tag of a discovery result. -/
inductive URLSource where
  | sitemap
  | crawl
deriving DecidableEq

/-- Result record of `collectURLs` (src/unnamed/part_003 lines 8-13). -/
structure URLCollectionResult where
  urls : List String
  source : URLSource
  total : Nat
  filtered : Nat
deriving DecidableEq

/-- Embedding of `collectURLs` (src/unnamed/part_003 lines 15-48): try the
sitemap, fall back to the crawl on any sitemap failure (crawl errors are
*not* caught there), then filter, deduplicate and truncate.  Errors of
`crawlWebsite` and `filterURLs` propagate out. -/
def collectURLs (cfg : VRTConfig) (sitemapRes : Except Unit (List String))
    (cenv : CrawlEnv) : Except Unit URLCollectionResult :=
  let step1 : Except Unit (List String × URLSource) :=
    match collectFromSitemap cfg.referenceUrl sitemapRes with
    | .ok sites => .ok (sites, .sitemap)
    | .error _ =>
        (crawlWebsite cfg.referenceUrl cfg.removeTrailingSlash cenv).map
          (fun l => (l, .crawl))
  match step1 with
  | .error e => .error e
  | .ok (urls0, source) =>
    match filterURLs urls0 cfg.referenceUrl
        (cfg.includeGlobs.getD ["*"]) (cfg.excludeGlobs.getD []) with
    | .error e => .error e
    | .ok kept =>
        .ok { urls := postFilterPipeline kept cfg.maxUrls,
              source := source,
              total := urls0.length,
              filtered := (dedupFirst kept).length }

/-- Model of `parseInt(s, 10)` as used for `--max-urls`
(src/unnamed/part_001 line 252): optional sign followed by leading decimal
digits; no digits yields `none`, modelling `NaN`. -/
def parseIntModel (s : String) : Option Int :=
  let digits (cs : List Char) : Option Nat :=
    let ds := cs.takeWhile Char.isDigit
    if ds.isEmpty then none
    else some (ds.foldl (fun acc c => acc * 10 + (c.toNat - '0'.toNat)) 0)
  match s.data with
  | '-' :: rest => (digits rest).map (fun n => -(n : Int))
  | '+' :: rest => (digits rest).map (fun n => (n : Int))
  | cs => (digits cs).map (fun n => (n : Int))

/-- Embedding of the CLI override `if (args.maxUrls) config.maxUrls =
args.maxUrls` (src/unnamed/part_001 line 111): a falsy parsed value (`0` or
`NaN`, the latter modelled by `none`) leaves the config value unchanged. -/
def applyMaxUrlsOverride (cfgMax : Option Int) (cliMax : Option Int) : Option Int :=
  match cliMax with
  | some v => if v ≠ 0 then some v else cfgMax
  | none => cfgMax

/-- Decision of the `filterURLs` callback for one URL whose parses succeed,
read off the source (src/unnamed/part_003 lines 138-165). -/
def filterKeepPred (baseUrl : String) (includePats excludePats : List String)
    (u : String) : Bool :=
  match parseURL u, parseURL baseUrl with
  | some uo, some bo =>
      if uo.hostname ≠ bo.hostname then false
      else if !excludePats.isEmpty && isMatchB (pathq uo) excludePats then false
      else if !includePats.isEmpty then isMatchB (pathq uo) includePats
      else true
  | _, _ => false

/-- Specification-side include-neutral filter decision, following the
spec's words for the default include: "every same-host URL that matches no
exclude glob is kept". -/
def specIncludeNeutralKeep (baseUrl : String) (excludePats : List String)
    (u : String) : Bool :=
  match parseURL u, parseURL baseUrl with
  | some uo, some bo => uo.hostname == bo.hostname && !isMatchB (pathq uo) excludePats
  | _, _ => false

/-- Concrete effective configuration used to exhibit the fingerprint
defect: defaults plus a `threshold.maxDiffPixels` of 100. -/
def cfgThresholdA : List (String × Json) :=
  [("referenceUrl", .str "https://prod"),
   ("testUrl", .str "https://stage"),
   ("maxUrls", .prim "25"),
   ("threshold", .obj [("maxDiffPixels", .prim "100"),
                       ("maxDiffPixelRatio", .prim "0.01")])]

/-- The same configuration after editing `threshold.maxDiffPixels`
to 999. -/
def cfgThresholdB : List (String × Json) :=
  [("referenceUrl", .str "https://prod"),
   ("testUrl", .str "https://stage"),
   ("maxUrls", .prim "25"),
   ("threshold", .obj [("maxDiffPixels", .prim "999"),
                       ("maxDiffPixelRatio", .prim "0.01")])]

/-! ## Run coordination and result aggregation (src/unnamed/part_002 and
the `main` orchestration of src/unnamed/part_001) -/

/-- External activity of a run, the observable the temporal claims are
about: invoking URL discovery against the reference target, invoking the
capture engine in update mode against a target, and invoking it in compare
mode against a target. -/
inductive Event where
  | discover
  | baselineCapture (url : String)
  | comparison (url : String)
deriving DecidableEq

/-- Aggregate test results (src/unnamed/part_002 lines 8-13). -/
structure TestResults where
  passed : Nat
  failed : Nat
  total : Nat
  exitCode : Nat
deriving DecidableEq

/-- Content of the engine's `results.json` as far as `parseResults` reads
it.  The outer `Option` is readability (missing or malformed JSON throws
into the `catch`); the next `Option` is presence of the `suites` field;
each suite optionally carries a `specs` list of per-spec `ok` booleans. -/
def ResultsFile : Type := Option (Option (List (Option (List Bool))))

/-- Embedding of `parseResults` (src/unnamed/part_002 lines 192-223): a
missing or malformed file is absorbed by the `catch` into
`{passed: 0, failed: 0, total: 0, exitCode: 1}`; otherwise every spec of
every suite is counted by its `ok` flag and `exitCode` is 0. -/
def parseResults (rf : ResultsFile) : TestResults :=
  match rf with
  | none => { passed := 0, failed := 0, total := 0, exitCode := 1 }
  | some suitesOpt =>
    match suitesOpt with
    | none => { passed := 0, failed := 0, total := 0, exitCode := 0 }
    | some suites =>
        let specs := (suites.map (fun s => s.getD [])).flatten
        { passed := specs.count true,
          failed := specs.count false,
          total := specs.length,
          exitCode := 0 }

/-- Environment of `runVisualTests`: whether baseline snapshots (.png
files) exist on disk, whether spawning the engine succeeds, the engine's
exit code for the comparison pass, and the results file it leaves. -/
structure RunnerEnv where
  snapshotsExist : Bool
  launchOk : Bool
  engineExitCompare : Nat
  resultsFile : ResultsFile

/-- Embedding of `runVisualTests` (src/unnamed/part_002 lines 59-117) as a
trace of engine invocations plus its result.  Phase 1 (baseline capture
from the reference URL) runs only when `updateBaseline` is set or no
baseline snapshots exist; phase 2 (comparison against the test URL) always
follows.  A spawn failure rejects (`.error`), caught by `main` as fatal;
its engine exit code is otherwise recorded but a nonzero value is not an
error. -/
def runVisualTests (cfg : VRTConfig) (updateBaseline : Bool)
    (env : RunnerEnv) : List Event × Except Unit TestResults :=
  if !updateBaseline && env.snapshotsExist then
    if env.launchOk then
      ([.comparison cfg.testUrl],
       .ok { passed := (parseResults env.resultsFile).passed,
             failed := (parseResults env.resultsFile).failed,
             total := (parseResults env.resultsFile).total,
             exitCode := env.engineExitCompare })
    else ([.comparison cfg.testUrl], .error ())
  else
    if env.launchOk then
      ([.baselineCapture cfg.referenceUrl, .comparison cfg.testUrl],
       .ok { passed := (parseResults env.resultsFile).passed,
             failed := (parseResults env.resultsFile).failed,
             total := (parseResults env.resultsFile).total,
             exitCode := env.engineExitCompare })
    else ([.baselineCapture cfg.referenceUrl], .error ())

/-- Termination mode of a run of `main`: the baseline-ambiguity refusal
(src/unnamed/part_001 lines 140-147), any other fatal error (the enclosing
`catch`, exit 2), or normal completion carrying the failed count. -/
inductive MainOutcome where
  | ambiguityRefusal
  | fatalError
  | completed (failed : Nat)
deriving DecidableEq

/-- Observable outcome of a `main` invocation: the external events in
order, the termination mode, and the process exit code. -/
structure MainRun where
  events : List Event
  outcome : MainOutcome
  exitCode : Nat
deriving DecidableEq

/-- Filesystem and process environment of a `main` invocation. -/
structure MainEnv where
  urlsFileExists : Bool
  cachedUrls : List String
  stored : Option StoredHashes
  currentTestFileHash : String
  sitemapRes : Except Unit (List String)
  cenv : CrawlEnv
  runner : RunnerEnv

/-- Embedding of `main` (src/unnamed/part_001 lines 103-222) from the point
where the effective configuration is validated.  `curConfigHash` is the
fingerprint `computeConfigHash(config)` of the effective configuration.
The gate, URL phase and the two-phase run follow the source order; every
activity before the gate (config load, hash computation, directory
creation) is filesystem-only, so the event trace starts empty. -/
def mainModel (hasExplicitReference : Bool) (updateBaseline : Bool)
    (cfg : VRTConfig) (curConfigHash : String) (env : MainEnv) : MainRun :=
  if !hasExplicitReference
      && !(isCacheValid env.stored curConfigHash env.currentTestFileHash)
      && !updateBaseline then
    { events := [], outcome := .ambiguityRefusal, exitCode := 2 }
  else
    match (if env.urlsFileExists
              && !(updateBaseline
                   || !(isCacheValid env.stored curConfigHash env.currentTestFileHash))
           then (([], .ok env.cachedUrls) : List Event × Except Unit (List String))
           else ([.discover],
                 (collectURLs cfg env.sitemapRes env.cenv).map (fun r => r.urls))) with
    | (evs, .error _) => { events := evs, outcome := .fatalError, exitCode := 2 }
    | (evs, .ok urls) =>
      if urls.isEmpty then { events := evs, outcome := .fatalError, exitCode := 2 }
      else
        match runVisualTests cfg
            (updateBaseline
             || !(isCacheValid env.stored curConfigHash env.currentTestFileHash))
            env.runner with
        | (revs, .error _) =>
            { events := evs ++ revs, outcome := .fatalError, exitCode := 2 }
        | (revs, .ok results) =>
            { events := evs ++ revs, outcome := .completed results.failed,
              exitCode := if results.failed > 0 then 1 else 0 }

/-! ## Orchestration lemmas -/

/-- When the gate condition is false, the run never terminates in the
baseline-ambiguity refusal. -/
theorem mainModel_outcome_ne_refusal (h f : Bool) (cfg : VRTConfig) (hash : String)
    (env : MainEnv)
    (hcond : (!h && !(isCacheValid env.stored hash env.currentTestFileHash) && !f) = false) :
    (mainModel h f cfg hash env).outcome ≠ .ambiguityRefusal := by
  unfold mainModel
  rw [hcond]
  simp only [Bool.false_eq_true, if_false]
  split
  · simp
  · split
    · simp
    · split
      · simp
      · simp

/-- Whenever the engine invocation of `runVisualTests` returns results,
their failed count is the one read from the results file by
`parseResults`. -/
theorem runVisualTests_ok_failed (cfg : VRTConfig) (u : Bool) (env : RunnerEnv)
    (revs : List Event) (r : TestResults)
    (heq : runVisualTests cfg u env = (revs, .ok r)) :
    r.failed = (parseResults env.resultsFile).failed := by
  unfold runVisualTests at heq
  split at heq <;> split at heq <;>
    first
    | (simp only [Prod.mk.injEq, Except.ok.injEq] at heq
       obtain ⟨-, hr⟩ := heq
       rw [← hr])
    | simp_all

/-- A completed run reports the failed count of the parsed results file and
derives its exit code only from that count. -/
theorem mainModel_completed (h f : Bool) (cfg : VRTConfig) (hash : String)
    (env : MainEnv) (k : Nat)
    (hk : (mainModel h f cfg hash env).outcome = .completed k) :
    k = (parseResults env.runner.resultsFile).failed
    ∧ (mainModel h f cfg hash env).exitCode = if 0 < k then 1 else 0 := by
  rcases hmm : mainModel h f cfg hash env with ⟨evs, out, code⟩
  rw [hmm] at hk
  simp only at hk
  unfold mainModel at hmm
  split at hmm
  · simp only [MainRun.mk.injEq] at hmm
    obtain ⟨-, h2, -⟩ := hmm
    rw [← h2] at hk
    simp at hk
  · split at hmm
    · simp only [MainRun.mk.injEq] at hmm
      obtain ⟨-, h2, -⟩ := hmm
      rw [← h2] at hk
      simp at hk
    · split at hmm
      · simp only [MainRun.mk.injEq] at hmm
        obtain ⟨-, h2, -⟩ := hmm
        rw [← h2] at hk
        simp at hk
      · split at hmm
        · simp only [MainRun.mk.injEq] at hmm
          obtain ⟨-, h2, -⟩ := hmm
          rw [← h2] at hk
          simp at hk
        · rename_i revs results heq
          simp only [MainRun.mk.injEq] at hmm
          obtain ⟨-, h2, h3⟩ := hmm
          rw [← h2] at hk
          simp only [MainOutcome.completed.injEq] at hk
          have hfail := runVisualTests_ok_failed cfg _ env.runner revs results heq
          subst hk
          exact ⟨hfail, by rw [← h3]⟩

/-- C1: the run is refused with the baseline-ambiguity error (fatal, exit
code 2) exactly when `hasExplicitReference = false`, the cache is invalid
and `forceUpdate` is not set; every other combination of the three booleans
proceeds past the gate, and a refusal happens before any network or browser
activity (its event trace is empty). -/
theorem C1_baseline_policy_gate (h f : Bool) (cfg : VRTConfig) (hash : String)
    (env : MainEnv) :
    ((mainModel h f cfg hash env).outcome = .ambiguityRefusal ↔
      h = false ∧ isCacheValid env.stored hash env.currentTestFileHash = false
        ∧ f = false)
    ∧ ((mainModel h f cfg hash env).outcome = .ambiguityRefusal →
        (mainModel h f cfg hash env).events = []
        ∧ (mainModel h f cfg hash env).exitCode = 2) := by
  have href : h = false → isCacheValid env.stored hash env.currentTestFileHash = false →
      f = false → mainModel h f cfg hash env = ⟨[], .ambiguityRefusal, 2⟩ := by
    intro hh hc hf
    subst hh; subst hf
    unfold mainModel
    rw [hc]
    simp
  constructor
  · constructor
    · intro hout
      by_cases hh : h = true
      · exact absurd hout
          (mainModel_outcome_ne_refusal h f cfg hash env (by simp [hh]))
      · by_cases hf : f = true
        · exact absurd hout
            (mainModel_outcome_ne_refusal h f cfg hash env (by simp [hf]))
        · by_cases hc : isCacheValid env.stored hash env.currentTestFileHash = true
          · exact absurd hout
              (mainModel_outcome_ne_refusal h f cfg hash env (by simp [hc]))
          · exact ⟨Bool.eq_false_iff.mpr (fun hx => hh hx),
              Bool.eq_false_iff.mpr (fun hx => hc hx),
              Bool.eq_false_iff.mpr (fun hx => hf hx)⟩
    · rintro ⟨hh, hc, hf⟩
      rw [href hh hc hf]
  · intro hout
    by_cases hh : h = true
    · exact absurd hout (mainModel_outcome_ne_refusal h f cfg hash env (by simp [hh]))
    · by_cases hf : f = true
      · exact absurd hout (mainModel_outcome_ne_refusal h f cfg hash env (by simp [hf]))
      · by_cases hc : isCacheValid env.stored hash env.currentTestFileHash = true
        · exact absurd hout (mainModel_outcome_ne_refusal h f cfg hash env (by simp [hc]))
        · rw [href (Bool.eq_false_iff.mpr (fun hx => hh hx))
            (Bool.eq_false_iff.mpr (fun hx => hc hx))
            (Bool.eq_false_iff.mpr (fun hx => hf hx))]
          exact ⟨rfl, rfl⟩

/-- Witness for C1: a concrete implicit-reference, invalid-cache, no-force
invocation refuses with an empty event trace and exit code 2. -/
theorem C1_baseline_policy_gate_witness :
    (mainModel false false ⟨"https://a.test", "https://a.test", none, none, none, false⟩
      "h" ⟨false, [], none, "t", .error (), ⟨true, .gotoFail⟩, ⟨false, true, 0, none⟩⟩).events = []
    ∧ (mainModel false false ⟨"https://a.test", "https://a.test", none, none, none, false⟩
      "h" ⟨false, [], none, "t", .error (), ⟨true, .gotoFail⟩, ⟨false, true, 0, none⟩⟩).exitCode = 2 := by
  exact (C1_baseline_policy_gate false false
      ⟨"https://a.test", "https://a.test", none, none, none, false⟩ "h"
      ⟨false, [], none, "t", .error (), ⟨true, .gotoFail⟩, ⟨false, true, 0, none⟩⟩).2
    ((C1_baseline_policy_gate false false
      ⟨"https://a.test", "https://a.test", none, none, none, false⟩ "h"
      ⟨false, [], none, "t", .error (), ⟨true, .gotoFail⟩, ⟨false, true, 0, none⟩⟩).1.mpr
      ⟨rfl, rfl, rfl⟩)

/-- C3: with no force and a valid cache manifest (and the persisted URL set
and baseline snapshots present on disk, as the claim presupposes), the run
skips discovery and baseline capture entirely: its only external activity is
the comparison pass against the test target, so the reference target is
never contacted. -/
theorem C3_cache_reuse_skips_reference (h : Bool) (cfg : VRTConfig) (hash : String)
    (env : MainEnv)
    (hc : isCacheValid env.stored hash env.currentTestFileHash = true)
    (hu : env.urlsFileExists = true)
    (hne : env.cachedUrls ≠ [])
    (hs : env.runner.snapshotsExist = true)
    (hl : env.runner.launchOk = true) :
    (mainModel h false cfg hash env).events = [.comparison cfg.testUrl]
    ∧ (mainModel h false cfg hash env).outcome
        = .completed (parseResults env.runner.resultsFile).failed := by
  unfold mainModel
  rw [hc]
  simp only [Bool.not_true, Bool.and_false, Bool.false_and, Bool.false_eq_true, if_false,
    Bool.or_false, Bool.not_false, Bool.and_true, hu, Bool.true_and, if_true]
  rw [if_neg (by simp [List.isEmpty_iff, hne])]
  unfold runVisualTests
  rw [hs]
  simp only [Bool.not_false, Bool.true_and, if_true, hl]
  simp

/-- Witness for C3: a concrete valid-cache run executes exactly one
comparison event against the test target and completes. -/
theorem C3_cache_reuse_skips_reference_witness :
    (mainModel true false ⟨"https://prod", "https://stage", none, none, none, false⟩ "h"
      ⟨true, ["https://prod/"], some ⟨"h", "t"⟩, "t", .error (), ⟨true, .gotoFail⟩,
        ⟨true, true, 0, none⟩⟩).events = [.comparison "https://stage"]
    ∧ (mainModel true false ⟨"https://prod", "https://stage", none, none, none, false⟩ "h"
      ⟨true, ["https://prod/"], some ⟨"h", "t"⟩, "t", .error (), ⟨true, .gotoFail⟩,
        ⟨true, true, 0, none⟩⟩).outcome = .completed 0 := by
  have hres := C3_cache_reuse_skips_reference true
    ⟨"https://prod", "https://stage", none, none, none, false⟩ "h"
    ⟨true, ["https://prod/"], some ⟨"h", "t"⟩, "t", .error (), ⟨true, .gotoFail⟩,
      ⟨true, true, 0, none⟩⟩ (by decide) rfl (by decide) rfl rfl
  exact hres

/-- C4 counterexample: with a missing results file the aggregator returns
zeros with an internal exit indicator of 1, but the orchestrated run
completes and the process exit code is 0 (the success code) — not an error
exit status as the claim states. -/
theorem C4_counterexample_missing_results_exits_zero :
    parseResults (none : ResultsFile) = ⟨0, 0, 0, 1⟩
    ∧ (mainModel true false ⟨"https://prod", "https://stage", none, none, none, false⟩ "h"
        ⟨true, ["https://prod/"], some ⟨"h", "t"⟩, "t", .error (), ⟨true, .gotoFail⟩,
          ⟨true, true, 1, none⟩⟩).outcome = .completed 0
    ∧ (mainModel true false ⟨"https://prod", "https://stage", none, none, none, false⟩ "h"
        ⟨true, ["https://prod/"], some ⟨"h", "t"⟩, "t", .error (), ⟨true, .gotoFail⟩,
          ⟨true, true, 1, none⟩⟩).exitCode = 0 := by
  refine ⟨rfl, ?_, ?_⟩ <;> decide

/-- C4 as amended: a missing or malformed results file is absorbed by the
aggregator into `{passed := 0, failed := 0, total := 0}` (with an internal
`exitCode` field of 1) without crashing, but the process exit status of a
completed run is 0, because `main` derives the exit code solely from the
failed count. -/
theorem C4_missing_results_degrades (h f : Bool) (cfg : VRTConfig) (hash : String)
    (env : MainEnv) (hrf : env.runner.resultsFile = none) (k : Nat)
    (hk : (mainModel h f cfg hash env).outcome = .completed k) :
    parseResults env.runner.resultsFile = ⟨0, 0, 0, 1⟩
    ∧ k = 0 ∧ (mainModel h f cfg hash env).exitCode = 0 := by
  obtain ⟨h1, h2⟩ := mainModel_completed h f cfg hash env k hk
  rw [hrf] at h1 ⊢
  have hk0 : k = 0 := by rw [h1]; rfl
  subst hk0
  exact ⟨rfl, rfl, by rw [h2]; simp⟩

/-- Witness for C4: the amended statement applied to the concrete run of
the counterexample environment. -/
theorem C4_missing_results_degrades_witness :
    parseResults (none : ResultsFile) = ⟨0, 0, 0, 1⟩
    ∧ (0 : Nat) = 0
    ∧ (mainModel true false ⟨"https://prod", "https://stage", none, none, none, false⟩ "h"
        ⟨true, ["https://prod/"], some ⟨"h", "t"⟩, "t", .error (), ⟨true, .gotoFail⟩,
          ⟨true, true, 0, none⟩⟩).exitCode = 0 := by
  exact C4_missing_results_degrades true false
    ⟨"https://prod", "https://stage", none, none, none, false⟩ "h"
    ⟨true, ["https://prod/"], some ⟨"h", "t"⟩, "t", .error (), ⟨true, .gotoFail⟩,
      ⟨true, true, 0, none⟩⟩ rfl 0 (by decide)

/-- Deduplication of a nonempty list is nonempty. -/
theorem dedupFirst_ne_nil (x : String) (xs : List String) :
    dedupFirst (x :: xs) ≠ [] := by
  simp [dedupFirst, dedupGo]

/-- C10 counterexample: a negative `--max-urls` value is truthy, so it is
applied as an override, and JS `slice(0, negative)` can empty the URL list
— the URL budget is not always at least 1 when a URL was discovered. -/
theorem C10_counterexample_negative_max_urls :
    applyMaxUrlsOverride none (parseIntModel "-1") = some (-1)
    ∧ postFilterPipeline ["https://a.test/x"] (some (-1)) = []
    ∧ postFilterPipeline ["https://a.test/x"] none = ["https://a.test/x"] := by
  decide

/-- C10 as amended: an absent or zero `maxUrls` falls back to the default
cap of 25, a `--max-urls 0` override parses to the falsy 0 and is silently
ignored, and for an absent, zero or positive `maxUrls` the truncation
yields a nonempty list whenever a URL was discovered; only a negative
`maxUrls` (still expressible through the CLI) can empty the output. -/
theorem C10_max_urls_falsy_fallback :
    effectiveMaxUrls none = 25
    ∧ effectiveMaxUrls (some 0) = 25
    ∧ (∀ m : Option Int, applyMaxUrlsOverride m (parseIntModel "0") = m)
    ∧ (∀ (urls : List String) (m : Option Int),
        (m = none ∨ m = some 0 ∨ ∃ v : Int, 0 < v ∧ m = some v) →
        urls ≠ [] → postFilterPipeline urls m ≠ []) := by
  refine ⟨rfl, rfl, fun m => rfl, ?_⟩
  intro urls m hm hne
  obtain ⟨x, xs, rfl⟩ : ∃ x xs, urls = x :: xs := by
    cases urls with
    | nil => exact absurd rfl hne
    | cons x xs => exact ⟨x, xs, rfl⟩
  obtain ⟨y, ys, hd⟩ : ∃ y ys, dedupFirst (x :: xs) = y :: ys := by
    cases hdd : dedupFirst (x :: xs) with
    | nil => exact absurd hdd (dedupFirst_ne_nil x xs)
    | cons y ys => exact ⟨y, ys, rfl⟩
  have hpos : 0 < effectiveMaxUrls m := by
    rcases hm with rfl | rfl | ⟨v, hv, rfl⟩
    · decide
    · decide
    · simp only [effectiveMaxUrls]
      rw [if_neg (by omega : ¬ v = 0)]
      exact hv
  obtain ⟨n, hn⟩ : ∃ n : Nat, (effectiveMaxUrls m).toNat = n + 1 := by
    have h1 : 0 < (effectiveMaxUrls m).toNat := by omega
    exact ⟨(effectiveMaxUrls m).toNat - 1, by omega⟩
  unfold postFilterPipeline jsSlice0
  rw [hd, if_neg (by omega), hn, List.take_succ_cons]
  simp

/-- Witness for C10: a positive cap keeps the discovered URL. -/
theorem C10_max_urls_falsy_fallback_witness :
    postFilterPipeline ["https://a.test/"] (some 3) ≠ [] := by
  exact C10_max_urls_falsy_fallback.2.2.2 ["https://a.test/"] (some 3)
    (Or.inr (Or.inr ⟨3, by decide, rfl⟩)) (by decide)

/-- C2: editing the nested field `threshold.maxDiffPixels` does not change
the fingerprint.  `JSON.stringify(config, Object.keys(config).sort())`
uses the key array as a property list that filters keys at *every* nesting
level, so nested keys such as `maxDiffPixels` (absent from the top level)
are dropped from the serialization and the two distinct configurations hash
identically; consequently the stored manifest still validates and no
regeneration is triggered, contradicting the claim and §4.3 of the spec. -/
theorem C2_nested_edit_keeps_fingerprint :
    computeConfigHash cfgThresholdA = computeConfigHash cfgThresholdB
    ∧ cfgThresholdA ≠ cfgThresholdB
    ∧ ∀ t : String,
        isCacheValid (some ⟨computeConfigHash cfgThresholdA, t⟩)
          (computeConfigHash cfgThresholdB) t = true := by
  have hhash : computeConfigHash cfgThresholdA = computeConfigHash cfgThresholdB := by
    simp [computeConfigHash, cfgThresholdA, cfgThresholdB, strW, strF, strL,
      isort, insertLe, strLe, charsLe, lookupFirst, jquote]
  refine ⟨hhash, ?_, ?_⟩
  · simp [cfgThresholdA, cfgThresholdB]
  · intro t
    rw [hhash]
    simp [isCacheValid]

/-! ## Deduplication lemmas -/

/-- The dedup worker output is a subsequence of its input (order is
preserved). -/
theorem dedupGo_sublist (l : List String) : ∀ seen, (dedupGo seen l).Sublist l := by
  induction l with
  | nil => intro seen; simp [dedupGo]
  | cons x xs ih =>
    intro seen
    simp only [dedupGo]
    split
    · exact (ih seen).trans (List.sublist_cons_self x xs)
    · exact List.Sublist.cons₂ x (ih (x :: seen))

/-- Membership in the dedup worker output: the element occurs in the input
and was not already seen. -/
theorem dedupGo_mem (l : List String) :
    ∀ seen x, x ∈ dedupGo seen l ↔ x ∈ l ∧ x ∉ seen := by
  induction l with
  | nil => intro seen x; simp [dedupGo]
  | cons y ys ih =>
    intro seen x
    by_cases hy : y ∈ seen
    · rw [dedupGo, if_pos hy, ih seen x]
      simp only [List.mem_cons]
      constructor
      · rintro ⟨h1, h2⟩; exact ⟨Or.inr h1, h2⟩
      · rintro ⟨hor, h2⟩
        rcases hor with rfl | h1
        · exact absurd hy h2
        · exact ⟨h1, h2⟩
    · rw [dedupGo, if_neg hy]
      simp only [List.mem_cons, ih (y :: seen) x, List.mem_cons]
      constructor
      · rintro (rfl | ⟨h1, h2⟩)
        · exact ⟨Or.inl rfl, hy⟩
        · exact ⟨Or.inr h1, fun hx => h2 (Or.inr hx)⟩
      · rintro ⟨hor, h2⟩
        rcases hor with rfl | h1
        · exact Or.inl rfl
        · by_cases hxy : x = y
          · exact Or.inl hxy
          · exact Or.inr ⟨h1, fun hx => by
              rcases hx with h | h
              · exact hxy h
              · exact h2 h⟩

/-- The dedup worker output has no repeated elements. -/
theorem dedupGo_nodup (l : List String) : ∀ seen, (dedupGo seen l).Nodup := by
  induction l with
  | nil => intro seen; simp [dedupGo]
  | cons y ys ih =>
    intro seen
    simp only [dedupGo]
    split
    · exact ih seen
    · refine List.nodup_cons.mpr ⟨?_, ih (y :: seen)⟩
      intro hmem
      rw [dedupGo_mem] at hmem
      exact hmem.2 (List.mem_cons_self y seen)

/-- The dedup worker computes the specification-side first-occurrence
deduplication of the not-yet-seen elements. -/
theorem dedupGo_eq_spec (l : List String) : ∀ seen,
    dedupGo seen l = specFirstSeenDedup (l.filter (fun y => decide (y ∉ seen))) := by
  induction l with
  | nil => intro seen; simp [dedupGo, specFirstSeenDedup]
  | cons x xs ih =>
    intro seen
    by_cases hx : x ∈ seen
    · rw [dedupGo, if_pos hx, List.filter_cons_of_neg (by simp [hx])]
      exact ih seen
    · rw [dedupGo, if_neg hx, List.filter_cons_of_pos (by simp [hx]),
        specFirstSeenDedup]
      congr 1
      rw [ih (x :: seen), List.filter_filter]
      congr 1
      apply List.filter_congr
      intro a _
      by_cases h1 : a = x <;> by_cases h2 : a ∈ seen <;> simp [h1, h2]

/-- `Array.from(new Set(l))` is exactly the first-occurrence deduplication
of `l`. -/
theorem dedupFirst_eq_spec (l : List String) :
    dedupFirst l = specFirstSeenDedup l := by
  rw [dedupFirst, dedupGo_eq_spec]
  congr 1
  simp

/-- C9: the post-filter pipeline first removes exact-string duplicates
keeping the first occurrence in first-seen order (the result is a
duplicate-free subsequence with the same members, equal to the
specification-side first-occurrence dedup), then truncates to the first
`maxUrls` elements: it returns the deduplicated list unchanged when its
length is at most `maxUrls`, and exactly the first `maxUrls` elements in
order otherwise. -/
theorem C9_dedup_then_truncate (urls : List String) (n : Int) (hn : 0 < n) :
    dedupFirst urls = specFirstSeenDedup urls
    ∧ (dedupFirst urls).Nodup
    ∧ (dedupFirst urls).Sublist urls
    ∧ (∀ x, x ∈ dedupFirst urls ↔ x ∈ urls)
    ∧ postFilterPipeline urls (some n) = (dedupFirst urls).take n.toNat
    ∧ ((dedupFirst urls).length ≤ n.toNat →
        postFilterPipeline urls (some n) = dedupFirst urls)
    ∧ (n.toNat < (dedupFirst urls).length →
        (postFilterPipeline urls (some n)).length = n.toNat) := by
  have he : effectiveMaxUrls (some n) = n := by
    show (if n = 0 then 25 else n) = n
    rw [if_neg (by omega : ¬ n = 0)]
  have hpipe : postFilterPipeline urls (some n) = (dedupFirst urls).take n.toNat := by
    unfold postFilterPipeline jsSlice0
    rw [he, if_neg (by omega : ¬ n < 0)]
  refine ⟨dedupFirst_eq_spec urls, dedupGo_nodup urls [], dedupGo_sublist urls [],
    fun x => by rw [dedupFirst, dedupGo_mem]; simp, hpipe, ?_, ?_⟩
  · intro hle
    rw [hpipe]
    exact List.take_of_length_le hle
  · intro hlt
    rw [hpipe, List.length_take]
    omega

/-- Witness for C9: deduplicating then truncating a concrete list. -/
theorem C9_dedup_then_truncate_witness :
    0 < (2 : Int) ∧ postFilterPipeline ["a", "b", "a", "c"] (some 2) = ["a", "b"] := by
  refine ⟨by decide, ?_⟩
  have h := (C9_dedup_then_truncate ["a", "b", "a", "c"] 2 (by decide)).2.2.2.2.1
  rw [h]
  decide

/-! ## Glob and filtering lemmas -/

/-- A single star token matches every character sequence. -/
theorem gmatch_star_all (s : List Char) : gmatch [GTok.anySeq] s = true := by
  induction s with
  | nil => rfl
  | cons d ds ih =>
    show tryTails (gmatch []) (d :: ds) = true
    rw [tryTails]
    have hds : tryTails (gmatch []) ds = true := ih
    rw [hds, Bool.or_true]

/-- Under micromatch's `bash: true` option the default include pattern `*`
matches every path. -/
theorem isMatchB_star (s : String) : isMatchB s ["*"] = true := by
  have hc : compileGlob "*" = [GTok.anySeq] := rfl
  simp [isMatchB, hc, gmatch_star_all]

/-- No pattern of an empty list matches. -/
theorem isMatchB_nil (s : String) : isMatchB s [] = false := rfl

/-- When every URL parses, `filterURLs` succeeds and returns exactly the
URLs kept by the per-URL decision `filterKeepPred`. -/
theorem filterURLs_eq_filter (urls : List String) (baseUrl : String)
    (inc exc : List String) (hb : (parseURL baseUrl).isSome)
    (hu : ∀ u ∈ urls, (parseURL u).isSome) :
    filterURLs urls baseUrl inc exc
      = .ok (urls.filter (filterKeepPred baseUrl inc exc)) := by
  induction urls with
  | nil => rfl
  | cons u rest ih =>
    obtain ⟨uo, huo⟩ := Option.isSome_iff_exists.mp (hu u (List.mem_cons_self u rest))
    obtain ⟨bo, hbo⟩ := Option.isSome_iff_exists.mp hb
    rw [filterURLs, huo, hbo, ih (fun v hv => hu v (List.mem_cons_of_mem u hv)),
      List.filter_cons]
    simp only [Except.map, filterKeepPred, huo, hbo]

/-- With the default include list `["*"]` the per-URL decision is
include-neutral: it keeps exactly the same-host URLs matching no exclude
glob. -/
theorem filterKeepPred_star (baseUrl : String) (exc : List String) (u : String) :
    filterKeepPred baseUrl ["*"] exc u = specIncludeNeutralKeep baseUrl exc u := by
  unfold filterKeepPred specIncludeNeutralKeep
  cases huo : parseURL u with
  | none => rfl
  | some uo =>
    cases hbo : parseURL baseUrl with
    | none => rfl
    | some bo =>
      by_cases hh : uo.hostname = bo.hostname
      · by_cases hex : isMatchB (pathq uo) exc = true
        · cases exc with
          | nil => rw [isMatchB_nil] at hex; exact absurd hex (by simp)
          | cons e es => simp [hh, hex]
        · simp [hh, Bool.not_eq_true _ ▸ hex, isMatchB_star]
      · simp [hh]

/-- C6: with the default include list (configured when the user sets none),
filtering is include-neutral — it returns exactly the same-host URLs whose
path+query matches no exclude glob, i.e. the default include behaves as
match-all. -/
theorem C6_default_include_is_match_all (urls : List String) (baseUrl : String)
    (exc : List String) (hb : (parseURL baseUrl).isSome)
    (hu : ∀ u ∈ urls, (parseURL u).isSome) :
    filterURLs urls baseUrl ["*"] exc
      = .ok (urls.filter (specIncludeNeutralKeep baseUrl exc)) := by
  rw [filterURLs_eq_filter urls baseUrl ["*"] exc hb hu]
  have hfun : filterKeepPred baseUrl ["*"] exc = specIncludeNeutralKeep baseUrl exc :=
    funext (filterKeepPred_star baseUrl exc)
  rw [hfun]

/-- Witness for C6: concrete filtering with the default include keeps the
same-host non-excluded URL and drops the excluded and foreign-host ones. -/
theorem C6_default_include_is_match_all_witness :
    filterURLs ["https://a.test/", "https://a.test/admin/x", "https://other.host/y"]
      "https://a.test" ["*"] ["/admin/*"] = .ok ["https://a.test/"] := by
  rw [C6_default_include_is_match_all
    ["https://a.test/", "https://a.test/admin/x", "https://other.host/y"]
    "https://a.test" ["/admin/*"] (by decide) (by decide)]
  rfl

/-- C7: exclude always wins over include.  With `exclude = ["**/admin/**"]`
and `include = ["**"]`, every input URL whose path+query matches the exclude
pattern is absent from the filter output, although it also matches the
include pattern. -/
theorem C7_exclude_wins_over_include (urls : List String) (baseUrl : String)
    (out : List String) (hb : (parseURL baseUrl).isSome)
    (hu : ∀ u ∈ urls, (parseURL u).isSome)
    (hout : filterURLs urls baseUrl ["**"] ["**/admin/**"] = .ok out) :
    ∀ u ∈ urls, ∀ uo, parseURL u = some uo →
      isMatchB (pathq uo) ["**/admin/**"] = true → u ∉ out := by
  rw [filterURLs_eq_filter urls baseUrl _ _ hb hu] at hout
  simp only [Except.ok.injEq] at hout
  subst hout
  intro u hmem uo huo hexc huout
  have hp := List.of_mem_filter huout
  unfold filterKeepPred at hp
  rw [huo] at hp
  obtain ⟨bo, hbo⟩ := Option.isSome_iff_exists.mp hb
  rw [hbo] at hp
  have hp2 : (if uo.hostname ≠ bo.hostname then false
      else if (!(["**/admin/**"] : List String).isEmpty
               && isMatchB (pathq uo) ["**/admin/**"]) = true then false
      else if (!(["**"] : List String).isEmpty) = true
           then isMatchB (pathq uo) ["**"] else true) = true := hp
  by_cases hh : uo.hostname = bo.hostname
  · rw [if_neg (fun hne => hne hh), if_pos (by simp [hexc])] at hp2
    exact absurd hp2 (by simp)
  · rw [if_pos hh] at hp2
    exact absurd hp2 (by simp)

/-- Witness for C7: a concrete admin URL matching both the include and the
exclude patterns is removed from the output. -/
theorem C7_exclude_wins_over_include_witness :
    "https://a.test/admin/sub/x" ∉ ["https://a.test/"] := by
  exact C7_exclude_wins_over_include
    ["https://a.test/", "https://a.test/admin/sub/x"] "https://a.test"
    ["https://a.test/"] (by decide) (by decide) (by rfl)
    "https://a.test/admin/sub/x" (by decide)
    ⟨"https", "a.test", "/admin/sub/x", "", ""⟩ (by decide) (by decide)

/-- C5 counterexample: URL discovery can raise.  With a sitemap that
returns a malformed URL entry, the `new URL(url)` call inside `filterURLs`
throws and the exception propagates out of `collectURLs` (the `try` only
covers the sitemap fetch).  A browser-launch failure in the crawl fallback
propagates similarly. -/
theorem C5_counterexample_discovery_raises :
    collectURLs ⟨"https://a.test", "https://b.test", none, none, none, false⟩
      (.ok ["bad url"]) ⟨true, .gotoFail⟩ = .error ()
    ∧ collectURLs ⟨"https://a.test", "https://b.test", none, none, none, false⟩
      (.error ()) ⟨false, .gotoFail⟩ = .error () := by
  constructor <;> rfl

/-- C5 as amended: a sitemap failure falls back to the crawl, and
navigation errors inside the crawl are absorbed, degrading discovery to the
reference URL alone (with `source = crawl`); but `collectURLs` is not
raise-free — a browser-launch failure or a malformed URL reaching
`filterURLs` propagates, as the counterexample shows. -/
theorem C5_crawl_errors_absorbed (cfg : VRTConfig) (cenv : CrawlEnv) (bo : URLParts)
    (hb : parseURL cfg.referenceUrl = some bo)
    (hl : cenv.launchOk = true) (hnav : cenv.nav = .gotoFail)
    (hinc : cfg.includeGlobs = none) (hexc : cfg.excludeGlobs = none)
    (hmax : cfg.maxUrls = none) :
    collectURLs cfg (.error ()) cenv = .ok ⟨[cfg.referenceUrl], .crawl, 1, 1⟩ := by
  have hbsome : (parseURL cfg.referenceUrl).isSome = true := by rw [hb]; rfl
  have hstep : collectFromSitemap cfg.referenceUrl (Except.error ()) = .error () := by
    unfold collectFromSitemap
    split <;> rfl
  have hcrawl : crawlWebsite cfg.referenceUrl cfg.removeTrailingSlash cenv
      = .ok [cfg.referenceUrl] := by
    unfold crawlWebsite
    rw [hl, hb, hnav]
    simp
  have hpred : filterKeepPred cfg.referenceUrl ["*"] [] cfg.referenceUrl = true := by
    unfold filterKeepPred
    rw [hb]
    simp [isMatchB_star]
  have hfilter : filterURLs [cfg.referenceUrl] cfg.referenceUrl ["*"] []
      = .ok [cfg.referenceUrl] := by
    rw [filterURLs_eq_filter [cfg.referenceUrl] cfg.referenceUrl ["*"] [] hbsome
      (fun v hv => by rw [List.mem_singleton] at hv; subst hv; exact hbsome)]
    rw [List.filter_cons, hpred]
    simp
  have hdd : dedupFirst [cfg.referenceUrl] = [cfg.referenceUrl] := rfl
  have hpp : postFilterPipeline [cfg.referenceUrl] none = [cfg.referenceUrl] := by
    unfold postFilterPipeline jsSlice0
    rw [hdd, if_neg (by decide),
      List.take_of_length_le (by show (1 : Nat) ≤ (effectiveMaxUrls none).toNat; decide)]
  unfold collectURLs
  rw [hstep, hcrawl, hinc, hexc, hmax]
  simp only [Except.map, Option.getD_none]
  rw [hfilter]
  simp only [hpp, hdd]
  rfl

/-- Witness for C5: the amended statement at a concrete configuration. -/
theorem C5_crawl_errors_absorbed_witness :
    collectURLs ⟨"https://a.test", "https://b.test", none, none, none, false⟩
      (.error ()) ⟨true, .gotoFail⟩ = .ok ⟨["https://a.test"], .crawl, 1, 1⟩ := by
  exact C5_crawl_errors_absorbed
    ⟨"https://a.test", "https://b.test", none, none, none, false⟩ ⟨true, .gotoFail⟩
    ⟨"https", "a.test", "/", "", ""⟩ (by decide) rfl rfl rfl rfl rfl

/-! ## Order and sorting lemmas for the canonicalization argument -/

/-- The lexicographic comparison is total. -/
theorem charsLe_total : ∀ a b : List Char, charsLe a b = true ∨ charsLe b a = true
  | [], _ => Or.inl rfl
  | _ :: _, [] => Or.inr rfl
  | c :: cs, d :: ds => by
    by_cases h : c = d
    · subst h
      rcases charsLe_total cs ds with h1 | h1
      · left; simp [charsLe, h1]
      · right; simp [charsLe, h1]
    · rcases lt_trichotomy c d with hlt | heq | hgt
      · left; simp [charsLe, h, hlt]
      · exact absurd heq h
      · right; simp [charsLe, Ne.symm h, hgt]

/-- The lexicographic comparison is transitive. -/
theorem charsLe_trans : ∀ a b c : List Char,
    charsLe a b = true → charsLe b c = true → charsLe a c = true
  | [], _, _, _, _ => rfl
  | x :: xs, [], _, h, _ => by simp [charsLe] at h
  | _ :: _, _ :: _, [], _, h => by simp [charsLe] at h
  | x :: xs, y :: ys, z :: zs, h1, h2 => by
    by_cases hxy : x = y
    · subst hxy
      by_cases hyz : x = z
      · subst hyz
        rw [charsLe, if_pos rfl] at h1 h2 ⊢
        exact charsLe_trans xs ys zs h1 h2
      · rw [charsLe, if_neg hyz] at h2 ⊢
        exact h2
    · rw [charsLe, if_neg hxy] at h1
      have hxyl : x < y := of_decide_eq_true h1
      by_cases hyz : y = z
      · subst hyz
        rw [charsLe, if_neg hxy]
        exact decide_eq_true hxyl
      · rw [charsLe, if_neg hyz] at h2
        have hyzl : y < z := of_decide_eq_true h2
        have hxzl : x < z := lt_trans hxyl hyzl
        rw [charsLe, if_neg (ne_of_lt hxzl)]
        exact decide_eq_true hxzl

/-- The lexicographic comparison is antisymmetric. -/
theorem charsLe_antisymm : ∀ a b : List Char,
    charsLe a b = true → charsLe b a = true → a = b
  | [], [], _, _ => rfl
  | [], _ :: _, _, h => by simp [charsLe] at h
  | _ :: _, [], h, _ => by simp [charsLe] at h
  | x :: xs, y :: ys, h1, h2 => by
    by_cases hxy : x = y
    · subst hxy
      rw [charsLe, if_pos rfl] at h1 h2
      rw [charsLe_antisymm xs ys h1 h2]
    · rw [charsLe, if_neg hxy] at h1
      rw [charsLe, if_neg (Ne.symm hxy)] at h2
      exact absurd (lt_trans (of_decide_eq_true h1) (of_decide_eq_true h2))
        (lt_irrefl x)

/-- Totality of the string comparison. -/
theorem strLe_total (a b : String) : strLe a b = true ∨ strLe b a = true :=
  charsLe_total a.data b.data

/-- Transitivity of the string comparison. -/
theorem strLe_trans (a b c : String) (h1 : strLe a b = true) (h2 : strLe b c = true) :
    strLe a c = true :=
  charsLe_trans a.data b.data c.data h1 h2

/-- Antisymmetry of the string comparison. -/
theorem strLe_antisymm (a b : String) (h1 : strLe a b = true) (h2 : strLe b a = true) :
    a = b := by
  cases a with
  | mk da =>
    cases b with
    | mk db =>
      have := charsLe_antisymm da db h1 h2
      rw [this]

/-- Inserting permutes to consing. -/
theorem insertLe_perm (le : α → α → Bool) (x : α) (l : List α) :
    (insertLe le x l).Perm (x :: l) := by
  induction l with
  | nil => exact List.Perm.refl _
  | cons y ys ih =>
    rw [insertLe]
    split
    · exact List.Perm.refl _
    · exact (List.Perm.cons y ih).trans (List.Perm.swap x y ys)

/-- Sorting permutes to the input. -/
theorem isort_perm (le : α → α → Bool) (l : List α) : (isort le l).Perm l := by
  induction l with
  | nil => exact List.Perm.refl _
  | cons x xs ih =>
    exact (insertLe_perm le x (isort le xs)).trans (List.Perm.cons x ih)

/-- Inserting into a pairwise-le list preserves pairwise-le, for a total
transitive comparison. -/
theorem insertLe_pairwise (le : α → α → Bool)
    (htot : ∀ a b, le a b = true ∨ le b a = true)
    (htr : ∀ a b c, le a b = true → le b c = true → le a c = true)
    (x : α) (l : List α) (hl : l.Pairwise (fun a b => le a b = true)) :
    (insertLe le x l).Pairwise (fun a b => le a b = true) := by
  induction l with
  | nil => simp [insertLe]
  | cons y ys ih =>
    rw [insertLe]
    split
    · rename_i hxy
      refine List.Pairwise.cons ?_ hl
      intro z hz
      rcases List.mem_cons.mp hz with rfl | hz2
      · exact hxy
      · exact htr x y z hxy ((List.pairwise_cons.mp hl).1 z hz2)
    · rename_i hxy
      have hyx : le y x = true := by
        rcases htot x y with h | h
        · exact absurd h hxy
        · exact h
      obtain ⟨hhead, htail⟩ := List.pairwise_cons.mp hl
      refine List.pairwise_cons.mpr ⟨?_, ih htail⟩
      intro z hz
      rcases List.mem_cons.mp ((insertLe_perm le x ys).mem_iff.mp hz) with rfl | h
      · exact hyx
      · exact hhead z h

/-- Insertion sort yields a pairwise-le list, for a total transitive
comparison. -/
theorem isort_pairwise (le : α → α → Bool)
    (htot : ∀ a b, le a b = true ∨ le b a = true)
    (htr : ∀ a b c, le a b = true → le b c = true → le a c = true)
    (l : List α) : (isort le l).Pairwise (fun a b => le a b = true) := by
  induction l with
  | nil => simp [isort]
  | cons x xs ih => exact insertLe_pairwise le htot htr x (isort le xs) ih

/-! ## Association-list lemmas -/

/-- Canonicalizing field values keeps the key list. -/
theorem canonF_keys : ∀ fs : List (String × Json),
    (canonF fs).map Prod.fst = fs.map Prod.fst
  | [] => by simp [canonF]
  | (k, v) :: fs => by
    rw [canonF]
    simp only [List.map_cons]
    rw [canonF_keys fs]

/-- Looking up in the value-canonicalized fields is looking up and then
canonicalizing. -/
theorem lookupFirst_canonF : ∀ (fs : List (String × Json)) (k : String),
    lookupFirst (canonF fs) k = (lookupFirst fs k).map canon
  | [], _ => by simp [canonF, lookupFirst]
  | (k', v) :: fs, k => by
    rw [canonF, lookupFirst, lookupFirst]
    by_cases h : k' = k
    · rw [if_pos h, if_pos h]
      rfl
    · rw [if_neg h, if_neg h]
      exact lookupFirst_canonF fs k

/-- Looking up in the serialized fields is looking up and then
serializing. -/
theorem lookupFirst_strF (P : List String) : ∀ (fs : List (String × Json)) (k : String),
    lookupFirst (strF P fs) k = (lookupFirst fs k).map (strW P)
  | [], _ => by simp [strF, lookupFirst]
  | (k', v) :: fs, k => by
    rw [strF, lookupFirst, lookupFirst]
    by_cases h : k' = k
    · rw [if_pos h, if_pos h]
      rfl
    · rw [if_neg h, if_neg h]
      exact lookupFirst_strF P fs k

/-- All values of a well-formed field list are well-formed. -/
theorem wfKeysF_lookup : ∀ (fs : List (String × Json)) (k : String) (v : Json),
    wfKeysF fs = true → lookupFirst fs k = some v → wfKeys v = true
  | [], _, _, _, h => by simp [lookupFirst] at h
  | (k', v') :: fs, k, v, hw, h => by
    rw [wfKeysF, Bool.and_eq_true] at hw
    rw [lookupFirst] at h
    by_cases hk : k' = k
    · rw [if_pos hk, Option.some.injEq] at h
      rw [← h]
      exact hw.1
    · rw [if_neg hk] at h
      exact wfKeysF_lookup fs k v hw.2 h

/-- A successful lookup returns a pair of the list. -/
theorem lookupFirst_mem : ∀ (fs : List (String × α)) (k : String) (v : α),
    lookupFirst fs k = some v → (k, v) ∈ fs
  | [], _, _, h => by simp [lookupFirst] at h
  | (k', v') :: fs, k, v, h => by
    rw [lookupFirst] at h
    by_cases hk : k' = k
    · rw [if_pos hk, Option.some.injEq] at h
      rw [← hk, ← h]
      exact List.mem_cons_self _ _
    · rw [if_neg hk] at h
      exact List.mem_cons_of_mem _ (lookupFirst_mem fs k v h)

/-- Lookup is invariant under permutation when the keys are distinct. -/
theorem lookupFirst_eq_of_perm (l1 l2 : List (String × α)) (h : l1.Perm l2)
    (nd : (l1.map Prod.fst).Nodup) :
    ∀ k, lookupFirst l1 k = lookupFirst l2 k := by
  induction h with
  | nil => intro k; rfl
  | cons a t ih =>
    intro k
    obtain ⟨ka, va⟩ := a
    rw [lookupFirst, lookupFirst]
    by_cases hk : ka = k
    · rw [if_pos hk, if_pos hk]
    · rw [if_neg hk, if_neg hk]
      exact ih (by
        simp only [List.map_cons, List.nodup_cons] at nd
        exact nd.2) k
  | swap a b t =>
    intro k
    obtain ⟨ka, va⟩ := a
    obtain ⟨kb, vb⟩ := b
    simp only [List.map_cons, List.nodup_cons, List.mem_cons] at nd
    have hab : kb ≠ ka := fun he => nd.1 (Or.inl he)
    rw [lookupFirst, lookupFirst, lookupFirst, lookupFirst]
    by_cases h1 : kb = k
    · subst h1
      rw [if_pos rfl, if_neg (fun h => hab h.symm), if_pos rfl]
    · rw [if_neg h1]
      by_cases h2 : ka = k
      · rw [if_pos h2, if_pos h2]
      · rw [if_neg h2, if_neg h2, if_neg h1]
  | trans h1 h2 ih1 ih2 =>
    intro k
    rw [ih1 nd k]
    refine ih2 ?_ k
    exact ((h1.map Prod.fst).nodup_iff).mp nd

/-! ## Congruence of the replacer serialization under canonicalization -/

/-- A looked-up value is smaller than its field list. -/
theorem sizeOf_lookupFirst : ∀ (fs : List (String × Json)) (k : String) (v : Json),
    lookupFirst fs k = some v → sizeOf v < sizeOf fs
  | [], _, _, h => by simp [lookupFirst] at h
  | (k', v') :: fs, k, v, h => by
    rw [lookupFirst] at h
    by_cases hk : k' = k
    · rw [if_pos hk, Option.some.injEq] at h
      rw [← h]
      have hsz : sizeOf ((k', v') :: fs) = 1 + (1 + sizeOf k' + sizeOf v') + sizeOf fs := rfl
      omega
    · rw [if_neg hk] at h
      have ih := sizeOf_lookupFirst fs k v h
      have hsz : sizeOf ((k', v') :: fs) = 1 + sizeOf (k', v') + sizeOf fs := rfl
      omega

/-- All elements of a well-formed value list are well-formed. -/
theorem wfKeysL_mem : ∀ (es : List Json), wfKeysL es = true → ∀ e ∈ es, wfKeys e = true
  | [], _, e, he => by simp at he
  | x :: xs, hw, e, he => by
    rw [wfKeysL, Bool.and_eq_true] at hw
    rcases List.mem_cons.mp he with rfl | he2
    · exact hw.1
    · exact wfKeysL_mem xs hw.2 e he2

/-- Element-wise serialization congruence lifted to lists, given the
congruence for the members. -/
theorem strL_congr_aux (P : List String) : ∀ (es1 es2 : List Json),
    (∀ e ∈ es1, ∀ e2 : Json, wfKeys e = true → wfKeys e2 = true →
      canon e = canon e2 → strW P e = strW P e2) →
    wfKeysL es1 = true → wfKeysL es2 = true → canonL es1 = canonL es2 →
    strL P es1 = strL P es2
  | [], [], _, _, _, _ => rfl
  | [], e2 :: t2, _, _, _, hc => by
    rw [canonL, canonL] at hc
    exact absurd hc (by simp)
  | e1 :: t1, [], _, _, _, hc => by
    rw [canonL, canonL] at hc
    exact absurd hc (by simp)
  | e1 :: t1, e2 :: t2, H, hw1, hw2, hc => by
    rw [canonL, canonL, List.cons.injEq] at hc
    rw [wfKeysL, Bool.and_eq_true] at hw1 hw2
    have h1 := H e1 (List.mem_cons_self _ _) e2 hw1.1 hw2.1 hc.1
    have h2 := strL_congr_aux P t1 t2
      (fun e he => H e (List.mem_cons_of_mem _ he)) hw1.2 hw2.2 hc.2
    rw [strL, strL, h1, h2]

/-- The replacer serialization depends only on the canonicalization: two
well-formed JSON values with equal key-sorted canonicalizations serialize
identically under every property list. -/
theorem strW_congr (n : Nat) : ∀ (j1 j2 : Json), sizeOf j1 ≤ n →
    wfKeys j1 = true → wfKeys j2 = true → canon j1 = canon j2 →
    ∀ P, strW P j1 = strW P j2 := by
  induction n using Nat.strong_induction_on with
  | _ n IH =>
    intro j1 j2 hsz hw1 hw2 hc P
    cases j1 with
    | prim s =>
      cases j2 with
      | prim t => simp only [canon, Json.prim.injEq] at hc; rw [hc]
      | str t => simp [canon] at hc
      | arr es => simp [canon] at hc
      | obj fs => simp [canon] at hc
    | str s =>
      cases j2 with
      | prim t => simp [canon] at hc
      | str t => simp only [canon, Json.str.injEq] at hc; rw [hc]
      | arr es => simp [canon] at hc
      | obj fs => simp [canon] at hc
    | arr es1 =>
      cases j2 with
      | prim t => simp [canon] at hc
      | str t => simp [canon] at hc
      | obj fs => simp [canon] at hc
      | arr es2 =>
        simp only [canon, Json.arr.injEq] at hc
        have hwl1 : wfKeysL es1 = true := by rw [wfKeys] at hw1; exact hw1
        have hwl2 : wfKeysL es2 = true := by rw [wfKeys] at hw2; exact hw2
        have hs : strL P es1 = strL P es2 := by
          refine strL_congr_aux P es1 es2 ?_ hwl1 hwl2 hc
          intro e he e2 hwe hwe2 hce
          have hlt : sizeOf e < n := by
            have h1 : sizeOf e < sizeOf es1 := List.sizeOf_lt_of_mem he
            have h2 : sizeOf (Json.arr es1) = 1 + sizeOf es1 := by
              simp [Json.arr.sizeOf_spec]
            omega
          exact IH (sizeOf e) hlt e e2 (le_refl _) hwe hwe2 hce P
        rw [strW, strW, hs]
    | obj fs1 =>
      cases j2 with
      | prim t => simp [canon] at hc
      | str t => simp [canon] at hc
      | arr es => simp [canon] at hc
      | obj fs2 =>
        simp only [canon, Json.obj.injEq] at hc
        rw [wfKeys, Bool.and_eq_true, decide_eq_true_eq] at hw1 hw2
        have hnd1 : ((canonF fs1).map Prod.fst).Nodup := by
          rw [canonF_keys]; exact hw1.1
        have hnd2 : ((canonF fs2).map Prod.fst).Nodup := by
          rw [canonF_keys]; exact hw2.1
        have hlk : ∀ k, lookupFirst (canonF fs1) k = lookupFirst (canonF fs2) k := by
          intro k
          rw [lookupFirst_eq_of_perm (canonF fs1) (isort pairLe (canonF fs1))
            (isort_perm pairLe (canonF fs1)).symm hnd1 k, hc,
            ← lookupFirst_eq_of_perm (canonF fs2) (isort pairLe (canonF fs2))
              (isort_perm pairLe (canonF fs2)).symm hnd2 k]
        have hlkv : ∀ k, (lookupFirst fs1 k).map canon = (lookupFirst fs2 k).map canon := by
          intro k
          rw [← lookupFirst_canonF, ← lookupFirst_canonF, hlk k]
        have hser : ∀ k, lookupFirst (strF P fs1) k = lookupFirst (strF P fs2) k := by
          intro k
          rw [lookupFirst_strF, lookupFirst_strF]
          cases h1 : lookupFirst fs1 k with
          | none =>
            cases h2 : lookupFirst fs2 k with
            | none => rfl
            | some v2 =>
              have := hlkv k
              rw [h1, h2] at this
              exact absurd this (by simp)
          | some v1 =>
            cases h2 : lookupFirst fs2 k with
            | none =>
              have := hlkv k
              rw [h1, h2] at this
              exact absurd this (by simp)
            | some v2 =>
              have hcv : canon v1 = canon v2 := by
                have := hlkv k
                rw [h1, h2] at this
                simpa using this
              have hwv1 := wfKeysF_lookup fs1 k v1 hw1.2 h1
              have hwv2 := wfKeysF_lookup fs2 k v2 hw2.2 h2
              have hlt : sizeOf v1 < n := by
                have ha := sizeOf_lookupFirst fs1 k v1 h1
                have hb : sizeOf (Json.obj fs1) = 1 + sizeOf fs1 := by
                  simp [Json.obj.sizeOf_spec]
                omega
              have := IH (sizeOf v1) hlt v1 v2 (le_refl _) hwv1 hwv2 hcv P
              simp [this]
        rw [strW, strW]
        have hfm : (P.filterMap (fun k => (lookupFirst (strF P fs1) k).map
              (fun sv => jquote k ++ ":" ++ sv)))
            = (P.filterMap (fun k => (lookupFirst (strF P fs2) k).map
              (fun sv => jquote k ++ ":" ++ sv))) := by
          apply List.filterMap_congr
          intro k _
          rw [hser k]
        rw [hfm]

/-- Sorting fields by key then projecting the keys equals sorting the
projected keys: both are sorted permutations of the same key list. -/
theorem keys_isort_pairLe (l : List (String × Json)) :
    (isort pairLe l).map Prod.fst = isort strLe (l.map Prod.fst) := by
  refine @List.eq_of_perm_of_sorted String (fun a b => strLe a b = true)
    ⟨fun a b => strLe_antisymm a b⟩ _ _ ?_ ?_ ?_
  · exact ((isort_perm pairLe l).map Prod.fst).trans
      (isort_perm strLe (l.map Prod.fst)).symm
  · exact List.Pairwise.map Prod.fst (fun a b h => h)
      (isort_pairwise pairLe (fun a b => strLe_total a.1 b.1)
        (fun a b c => strLe_trans a.1 b.1 c.1) l)
  · exact isort_pairwise strLe strLe_total strLe_trans (l.map Prod.fst)

/-- C8: two config objects (with the duplicate-free keys every JS object
has) that are equal after key-sorted canonicalization — same structured
content, field order free — receive equal fingerprints from
`computeConfigHash`. -/
theorem C8_canonical_equal_configs_hash_equal (fs1 fs2 : List (String × Json))
    (hw1 : wfKeys (.obj fs1) = true) (hw2 : wfKeys (.obj fs2) = true)
    (hc : canon (.obj fs1) = canon (.obj fs2)) :
    computeConfigHash fs1 = computeConfigHash fs2 := by
  have hc2 := hc
  simp only [canon, Json.obj.injEq] at hc2
  have hkeys : isort strLe (fs1.map Prod.fst) = isort strLe (fs2.map Prod.fst) := by
    have h1 := congrArg (List.map Prod.fst) hc2
    rw [keys_isort_pairLe, keys_isort_pairLe, canonF_keys, canonF_keys] at h1
    exact h1
  unfold computeConfigHash
  rw [hkeys]
  exact strW_congr (sizeOf (Json.obj fs1)) (.obj fs1) (.obj fs2) (le_refl _)
    hw1 hw2 hc _

/-- Witness for C8: two concrete configs with the same content in different
field order hash identically. -/
theorem C8_canonical_equal_configs_hash_equal_witness :
    computeConfigHash [("b", .prim "1"), ("a", .str "x")]
      = computeConfigHash [("a", .str "x"), ("b", .prim "1")] := by
  apply C8_canonical_equal_configs_hash_equal
  · simp only [wfKeys, wfKeysF, wfKeysL]
    decide
  · simp only [wfKeys, wfKeysF, wfKeysL]
    decide
  · simp [canon, canonF, canonL, isort, insertLe, pairLe, strLe, charsLe]

end PVRT
